import Mathlib

/-!
Shallow embedding of the log-duration-visualizer pipeline (src/main.rs).

Times are modelled as integers counting nanoseconds since the proleptic
Gregorian date 0001-01-01T00:00:00 (the reference date chrono uses for
`NaiveDate::from_ymd(1, 1, 1)`), mirroring `chrono::NaiveDateTime`, whose
subtraction yields a `Duration`; durations are likewise integer nanosecond
counts.  The regex engine and the chrono/float text parsers are external
libraries: a compiled pattern is modelled by its matching function and the
parsers are fields of an `Oracles` record, so every theorem quantifies over
their behaviour.  The f64 arithmetic of `parse_duration` is modelled
exactly by `FloatVal`, an unnormalised fraction with the arithmetic of the
real numbers, and `f64::round` (round half away from zero) by
`roundHalfAway`.
-/

namespace LogViz

/-- One nanosecond count per second (`Duration::seconds(1)` is 10^9 ns). -/
def nsPerSecond : Int := 1000000000

/-- Nanoseconds per day. -/
def nsPerDay : Int := 86400 * nsPerSecond

/-- The threshold `cutoff = Duration::seconds(1)` from `run` (src/main.rs line 112). -/
def cutoff : Int := nsPerSecond

/-- Days since 1970-01-01 of the proleptic Gregorian date y-m-d
(Hinnant civil-from-days formula), used to model `chrono::NaiveDate`. -/
def daysFromCivil (y m d : Int) : Int :=
  let y2 := if m ≤ 2 then y - 1 else y
  let era := Int.fdiv y2 400
  let yoe := y2 - era * 400
  let doy := Int.fdiv (153 * (m + (if 2 < m then -3 else 9)) + 2) 5 + d - 1
  let doe := yoe * 365 + Int.fdiv yoe 4 - Int.fdiv yoe 100 + doy
  era * 146097 + doe - 719468

/-- Shift from the 1970 epoch of `daysFromCivil` to our year-1 epoch:
`daysFromCivil 1 1 1 = -719162`. -/
def epochShift : Int := 719162

/-- Nanosecond timestamp of date y-m-d at `tod` nanoseconds into the day,
modelling `NaiveDate::from_ymd(y, m, d).and_time(t)`. -/
def dateAndTimeNs (y m d : Int) (tod : Int) : Int :=
  (daysFromCivil y m d + epochShift) * nsPerDay + tod

/-- Time-of-day in nanoseconds, modelling `and_hms_nano(h, mi, s, nano)`. -/
def hmsNano (h mi s nano : Int) : Int :=
  (h * 3600 + mi * 60 + s) * nsPerSecond + nano

/-- The sentinel `chrono::naive::MAX_DATE.and_hms_nano(23, 59, 59, 999_999_999)`
initialising `global_start_time` (src/main.rs line 116); `MAX_DATE` is
262143-12-31. -/
def globalStartInit : Int := dateAndTimeNs 262143 12 31 (hmsNano 23 59 59 999999999)

/-- The sentinel `chrono::naive::MIN_DATE.and_hms(0, 0, 0)` initialising
`global_end_time` (src/main.rs line 117); `MIN_DATE` is -262144-01-01. -/
def globalEndInit : Int := dateAndTimeNs (-262144) 1 1 0

/-- `chrono::Duration::num_seconds`: whole seconds, truncated toward zero. -/
def numSeconds (ns : Int) : Int := Int.tdiv ns nsPerSecond

/-- A regex capture result.  `get i` / `name nm` model `Captures::get` /
`Captures::name`: the outer `Option` is whether the group participated in the
match, the inner `Option` is the result of decoding its bytes as UTF-8
(`none` for invalid UTF-8). -/
structure Captures where
  get : Nat → Option (Option String)
  name : String → Option (Option String)

/-- A duration rule: its compiled pattern is modelled by the function
`captures`, returning the capture groups of the first match if any. -/
structure DurationPattern where
  captures : List Nat → Option Captures

/-- The timestamp rule: compiled pattern (as its `captures` function) plus the
chrono format string. -/
structure TimestampPattern where
  captures : List Nat → Option Captures
  format : String

/-- A color rule: its pattern is modelled by the Boolean matching function
used both for the individual regex and for the `RegexSet` membership. -/
structure ColorPattern where
  isMatch : List Nat → Bool
  color : String
  group : Nat

/-- The configuration consumed by `run`. -/
structure Config where
  timestamp : TimestampPattern
  durations : List DurationPattern
  colors : List ColorPattern

/-- Exact rational model of an `f64` value: an unnormalised fraction
`num / den` with `den` positive in every value the model constructs.  Using a
dedicated fraction type keeps every operation kernel-reducible. -/
structure FloatVal where
  num : Int
  den : Nat
deriving DecidableEq

/-- The f64 value of a natural number. -/
def FloatVal.ofNat (n : Nat) : FloatVal := { num := n, den := 1 }

/-- Exact f64 addition. -/
def FloatVal.add (a b : FloatVal) : FloatVal :=
  { num := a.num * b.den + b.num * a.den, den := a.den * b.den }

/-- Exact f64 multiplication. -/
def FloatVal.mul (a b : FloatVal) : FloatVal :=
  { num := a.num * b.num, den := a.den * b.den }

/-- External library functions the pipeline calls on captured text:
`str::parse::<f64>` (modelled over exact fractions),
`NaiveDateTime::parse_from_str`, `NaiveTime::parse_from_str` (both taking the
text and the format, returning a nanosecond timestamp resp. time-of-day), and
`String::from_utf8_lossy` on a raw line. -/
structure Oracles where
  parseF64 : String → Option FloatVal
  parseNaiveDateTime : String → String → Option Int
  parseNaiveTime : String → String → Option Int
  lossy : List Nat → String

/-- `get_str` (src/main.rs lines 67-69): group `index` must have participated
and its bytes must decode as UTF-8. -/
def get_str (c : Captures) (index : Nat) : Option String :=
  (c.get index).bind id

/-- `get_float` (src/main.rs lines 71-76): named group, UTF-8 decode, float
parse, with every failure collapsed to 0.0 by `unwrap_or`. -/
def get_float (O : Oracles) (c : Captures) (nm : String) : FloatVal :=
  (((c.name nm).bind id).bind O.parseF64).getD (FloatVal.ofNat 0)

/-- `f64::round`: round half away from zero.  For a fraction with positive
denominator, `round(num/den) = floor((2*|num| + den) / (2*den))` with the sign
reattached. -/
def roundHalfAway (q : FloatVal) : Int :=
  if q.num < 0 then -(Int.fdiv (2 * (-q.num) + q.den) (2 * q.den))
  else Int.fdiv (2 * q.num + q.den) (2 * q.den)

/-- `parse_duration` (src/main.rs lines 78-84): nanosecond count
`round((h*3600 + m*60 + s) * 1e9)`, always `Some`. -/
def parse_duration (O : Oracles) (c : Captures) : Option Int :=
  let hours := get_float O c "h"
  let minutes := get_float O c "m"
  let seconds := get_float O c "s"
  let nanoseconds :=
    FloatVal.mul
      (FloatVal.add (FloatVal.add (FloatVal.mul hours (FloatVal.ofNat 3600))
        (FloatVal.mul minutes (FloatVal.ofNat 60))) seconds)
      (FloatVal.ofNat 1000000000)
  some (roundHalfAway nanoseconds)

/-- The two-stage timestamp parse (src/main.rs lines 129-133): first
`NaiveDateTime::parse_from_str`, on failure `NaiveTime::parse_from_str`
anchored to `NaiveDate::from_ymd(1, 1, 1)`. -/
def resolveEndTs (O : Oracles) (fmt text : String) : Option Int :=
  match O.parseNaiveDateTime text fmt with
  | some t => some t
  | none => (O.parseNaiveTime text fmt).map (fun tod => dateAndTimeNs 1 1 1 tod)

/-- An `Interval` record (src/main.rs lines 17-23); `end_` stands for the
field `end`. -/
structure Interval where
  start : Int
  end_ : Int
  message : List Nat
  color : Nat
  lane : Nat
deriving DecidableEq

/-- First index of the list satisfying `p`, mirroring the
`iter().zip(0..).filter(..).next()` and `matches(..).iter().next()` idioms. -/
def firstMatchIdx (p : α → Bool) : List α → Option Nat
  | [] => none
  | a :: rest => if p a then some 0 else (firstMatchIdx p rest).map Nat.succ

/-- Outcome of processing one log line inside the ingest loop of `run`
(src/main.rs lines 119-162): continue silently, push an interval, abort via
`?` on the timestamp parse, abort via `?` on the missing color, or panic on
the `unwrap` of `get_str` (line 128). -/
inductive LineResult where
  | skip
  | accept (iv : Interval)
  | fatalTs
  | fatalColor (msg : String)
  | panicked
deriving DecidableEq

/-- Processing of one log line (src/main.rs lines 119-162): first matching
duration rule (`flat_map(..).next()`), timestamp capture, `get_str .. .unwrap()`,
two-stage timestamp parse behind `?`, duration computation and cutoff test,
then lowest-index color-set match behind `ok_or_else(..)?`. -/
def processLine (O : Oracles) (cfg : Config) (line : List Nat) : LineResult :=
  match cfg.durations.findSome? (fun d => d.captures line) with
  | none => .skip
  | some dur_captures =>
    match cfg.timestamp.captures line with
    | none => .skip
    | some ts_captures =>
      match get_str ts_captures 1 with
      | none => .panicked
      | some text =>
        match resolveEndTs O cfg.timestamp.format text with
        | none => .fatalTs
        | some end_ts =>
          match parse_duration O dur_captures with
          | none => .skip
          | some dur =>
            if dur < cutoff then .skip
            else
              match firstMatchIdx (fun c => c.isMatch line) cfg.colors with
              | none => .fatalColor ("no color specified for " ++ O.lossy line)
              | some color =>
                .accept { start := end_ts - dur, end_ := end_ts,
                          message := line, color := color, lane := 0 }

/-- The accumulating state of the ingest loop: the interval list and the two
running extrema. -/
structure IngestState where
  intervals : List Interval
  gstart : Int
  gend : Int
deriving DecidableEq

/-- The state before any line is read (src/main.rs lines 111, 116, 117). -/
def emptyState : IngestState := { intervals := [], gstart := globalStartInit, gend := globalEndInit }

/-- Outcome of a phase of `run`: success, an error propagated by `?` (the
timestamp parse or the missing color), or a panic. -/
inductive Outcome (α : Type) where
  | ok (a : α)
  | fatalTs
  | fatalColor (msg : String)
  | panicked
deriving DecidableEq

/-- The ingest loop over all log lines (src/main.rs lines 119-162):
`continue` on skip, update the extrema and push on accept, abort on error. -/
def ingest (O : Oracles) (cfg : Config) : List (List Nat) → IngestState → Outcome IngestState
  | [], st => .ok st
  | l :: ls, st =>
    match processLine O cfg l with
    | .skip => ingest O cfg ls st
    | .accept iv =>
      let gs := if iv.start < st.gstart then iv.start else st.gstart
      let ge := if st.gend < iv.end_ then iv.end_ else st.gend
      ingest O cfg ls { intervals := st.intervals ++ [iv], gstart := gs, gend := ge }
    | .fatalTs => .fatalTs
    | .fatalColor m => .fatalColor m
    | .panicked => .panicked

/-- The comparison behind
`sort_unstable_by_key(|a| (a.start, Reverse(a.end)))` (src/main.rs line 168):
lexicographic on the pair (start, reversed end). -/
def intervalLE (a b : Interval) : Bool :=
  decide (a.start < b.start) || (decide (a.start = b.start) && decide (b.end_ ≤ a.end_))

/-- The sort of the accepted interval list (src/main.rs line 168):
`sort_unstable_by_key` sorts by the key, in some order; insertion sort by the
same comparison is one such sort (sorted by the key, a permutation of the
input). -/
def sortIntervals (l : List Interval) : List Interval :=
  l.insertionSort (fun a b => intervalLE a b = true)

/-- The `BTreeMap<usize, (usize, Vec<NaiveDateTime>)>` of lane pools, as an
association list sorted by group id. -/
def LaneMap : Type := List (Nat × (Nat × List Int))

instance : DecidableEq LaneMap := by unfold LaneMap; infer_instance

/-- Ordered-map insertion, modelling `BTreeMap` insertion (an existing key has
its value replaced). -/
def insertSorted (k : Nat) (v : α) : List (Nat × α) → List (Nat × α)
  | [] => [(k, v)]
  | (k2, v2) :: rest =>
    if k < k2 then (k, v) :: (k2, v2) :: rest
    else if k = k2 then (k, v) :: rest
    else (k2, v2) :: insertSorted k v rest

/-- Building the lane map (src/main.rs lines 170-174): one entry
`(group, (0, vec![]))` per color rule, collected into a `BTreeMap`. -/
def buildLanes (colors : List ColorPattern) : LaneMap :=
  colors.foldl (fun m c => insertSorted c.group ((0 : Nat), ([] : List Int)) m) []

/-- Apply `f` to the value stored at key `k`, modelling the in-place mutation
through `get_mut`. -/
def updateLookup (m : List (Nat × α)) (k : Nat) (f : α → α) : List (Nat × α) :=
  m.map (fun p => if p.1 = k then (p.1, f p.2) else p)

/-- Lane assignment for one interval (src/main.rs lines 175-190): look up the
group pool (`unwrap`, modelled by `none` on failure, likewise the
`config.colors[interval.color]` indexing), reuse the first lane with
`lane_end_time - interval.start < cutoff` and overwrite its end time, else
append a new lane whose index is the current pool size. -/
def placeInterval (colors : List ColorPattern) (m : LaneMap) (iv : Interval) :
    Option (Interval × LaneMap) :=
  match colors.get? iv.color with
  | none => none
  | some cp =>
    match List.lookup cp.group m with
    | none => none
    | some (_, es) =>
      match firstMatchIdx (fun e => decide (e - iv.start < cutoff)) es with
      | some i =>
        some ({ iv with lane := i },
              updateLookup m cp.group (fun q => (q.1, q.2.set i iv.end_)))
      | none =>
        some ({ iv with lane := es.length },
              updateLookup m cp.group (fun q => (q.1, q.2 ++ [iv.end_])))

/-- The lane-assignment loop over the sorted intervals (src/main.rs
lines 175-190). -/
def packLanes (colors : List ColorPattern) : List Interval → LaneMap → Option (List Interval × LaneMap)
  | [], m => some ([], m)
  | iv :: rest, m =>
    match placeInterval colors m iv with
    | none => none
    | some (iv2, m2) =>
      match packLanes colors rest m2 with
      | none => none
      | some (rest2, m3) => some (iv2 :: rest2, m3)

/-- The offset-assignment loop (src/main.rs lines 192-196): walk the map in
ascending key order; each group receives the running total as its
`start_lane_id`, then the total grows by its lane count. -/
def assignOffsets : LaneMap → Nat → LaneMap × Nat
  | [], total => ([], total)
  | (g, (_, es)) :: rest, total =>
    let r := assignOffsets rest (total + es.length)
    ((g, (total, es)) :: r.1, r.2)

/-- The data handed to the artifact emitter: intervals with local lanes, the
offset-bearing lane map, the total lane count, and the global time data
(src/main.rs lines 164-166, 192-196). -/
structure Output where
  intervals : List Interval
  laneMap : LaneMap
  totalLanes : Nat
  globalStart : Int
  globalEnd : Int
  globalDuration : Int
deriving DecidableEq

/-- The final lane number printed for an interval (src/main.rs line 274):
local lane index plus the `start_lane_id` of the group of its color (`none`
models the panics of the two indexings). -/
def finalLane (colors : List ColorPattern) (m : LaneMap) (iv : Interval) : Option Nat :=
  match colors.get? iv.color with
  | none => none
  | some cp =>
    match List.lookup cp.group m with
    | none => none
    | some (off, _) => some (iv.lane + off)

/-- The analytical pipeline of `run` (src/main.rs lines 104-196): ingest every
line from the empty state, sort, pack lanes, assign offsets, and compute
`global_duration = (global_end_time - global_start_time).num_seconds()`. -/
def run (O : Oracles) (cfg : Config) (lines : List (List Nat)) : Outcome Output :=
  match ingest O cfg lines emptyState with
  | .ok st =>
    match packLanes cfg.colors (sortIntervals st.intervals) (buildLanes cfg.colors) with
    | none => .panicked
    | some r =>
      let mt := assignOffsets r.2 0
      .ok { intervals := r.1, laneMap := mt.1, totalLanes := mt.2,
            globalStart := st.gstart, globalEnd := st.gend,
            globalDuration := numSeconds (st.gend - st.gstart) }
  | .fatalTs => .fatalTs
  | .fatalColor m => .fatalColor m
  | .panicked => .panicked

/-- The exit behaviour of `main` (src/main.rs lines 384-389): 0 on success, 1
on a propagated error, `none` for the abnormal termination of a panic. -/
def mainExitCode (o : Outcome Output) : Option Nat :=
  match o with
  | .ok _ => some 0
  | .fatalTs => some 1
  | .fatalColor _ => some 1
  | .panicked => none

/-- The global duration of a successful run, `none` otherwise. -/
def globalDurationOf (o : Outcome Output) : Option Int :=
  match o with
  | .ok out => some out.globalDuration
  | _ => none

/-- The global extrema of a successful run, `none` otherwise. -/
def globalRangeOf (o : Outcome Output) : Option (Int × Int) :=
  match o with
  | .ok out => some (out.globalStart, out.globalEnd)
  | _ => none


/-! ### Helper lemmas about the first-match search -/

/-- If the first-match search returns index `i`, the element there satisfies
the predicate and every earlier element fails it. -/
theorem firstMatchIdx_some_spec (p : α → Bool) :
    ∀ (xs : List α) (i : Nat), firstMatchIdx p xs = some i →
      ∃ a, xs.get? i = some a ∧ p a = true ∧
        ∀ j b, j < i → xs.get? j = some b → p b = false := by
  intro xs
  induction xs with
  | nil => intro i h; simp [firstMatchIdx] at h
  | cons a rest ih =>
    intro i h
    by_cases hp : p a
    · simp [firstMatchIdx, hp] at h
      subst h
      exact ⟨a, rfl, hp, fun j b hj => absurd hj (Nat.not_lt_zero j)⟩
    · simp [firstMatchIdx, hp] at h
      obtain ⟨i0, h0, hi⟩ := h
      obtain ⟨a0, hget, hpa, hlt⟩ := ih i0 h0
      refine ⟨a0, ?_, hpa, ?_⟩
      · rw [← hi]; simpa using hget
      · intro j b hj hb
        match j with
        | 0 =>
          simp at hb
          rw [← hb]
          exact eq_false_of_ne_true hp
        | Nat.succ k =>
          have hk : k < i0 := by omega
          exact hlt k b hk (by simpa using hb)

/-- Completeness: the least index satisfying the predicate is found. -/
theorem firstMatchIdx_eq_some_of (p : α → Bool) :
    ∀ (xs : List α) (i : Nat) (a : α), xs.get? i = some a → p a = true →
      (∀ j b, j < i → xs.get? j = some b → p b = false) →
      firstMatchIdx p xs = some i := by
  intro xs
  induction xs with
  | nil => intro i a h; simp at h
  | cons x rest ih =>
    intro i a hget hpa hmin
    match i with
    | 0 =>
      simp at hget
      rw [← hget] at hpa
      simp [firstMatchIdx, hpa]
    | Nat.succ k =>
      have hx : p x = false := hmin 0 x (Nat.succ_pos k) rfl
      have hrest : firstMatchIdx p rest = some k := by
        refine ih k a (by simpa using hget) hpa ?_
        intro j b hj hb
        exact hmin (j + 1) b (by omega) (by simpa using hb)
      simp [firstMatchIdx, hx, hrest]

/-- The search returns `none` exactly when no element satisfies the predicate. -/
theorem firstMatchIdx_eq_none (p : α → Bool) :
    ∀ (xs : List α), firstMatchIdx p xs = none ↔ ∀ a ∈ xs, p a = false := by
  intro xs
  induction xs with
  | nil => simp [firstMatchIdx]
  | cons x rest ih =>
    by_cases hp : p x
    · simp [firstMatchIdx, hp]
    · simp [firstMatchIdx, hp, Option.map_eq_none, ih, eq_false_of_ne_true hp]

/-- A found index is within bounds. -/
theorem firstMatchIdx_lt_length (p : α → Bool) (xs : List α) (i : Nat)
    (h : firstMatchIdx p xs = some i) : i < xs.length := by
  obtain ⟨a, hget, -, -⟩ := firstMatchIdx_some_spec p xs i h
  exact List.get?_eq_some.mp hget |>.1

/-! ### Claim theorems (first batch) -/

/-- Claim C4: for every line matched by a duration rule, the computed duration
equals round((h*3600 + m*60 + s) * 1e9) nanoseconds over the values of the
named capture groups of the winning rule; a group that is absent, or whose
text does not decode or parse as a number, contributes 0; the computation
always succeeds (never aborts the line).  Floating-point arithmetic is
modelled by exact rationals and f64 rounding by `roundHalfAway`. -/
theorem claim_C4_duration_formula (O : Oracles) (c : Captures) :
    parse_duration O c =
      some (roundHalfAway (FloatVal.mul
        (FloatVal.add (FloatVal.add
          (FloatVal.mul (get_float O c "h") (FloatVal.ofNat 3600))
          (FloatVal.mul (get_float O c "m") (FloatVal.ofNat 60)))
          (get_float O c "s"))
        (FloatVal.ofNat 1000000000))) ∧
    (∀ nm, c.name nm = none → get_float O c nm = FloatVal.ofNat 0) ∧
    (∀ nm b, c.name nm = some b → b.bind O.parseF64 = none →
        get_float O c nm = FloatVal.ofNat 0) := by
  refine ⟨rfl, ?_, ?_⟩
  · intro nm h
    simp [get_float, h]
  · intro nm b h hb
    simp [get_float, h, hb]

/-- Characterisation of the sort comparison. -/
theorem intervalLE_iff (a b : Interval) :
    intervalLE a b = true ↔
      (a.start < b.start ∨ (a.start = b.start ∧ b.end_ ≤ a.end_)) := by
  simp [intervalLE, Bool.or_eq_true, Bool.and_eq_true, decide_eq_true_iff]

instance : IsTotal Interval (fun a b => intervalLE a b = true) := by
  constructor
  intro a b
  rcases lt_trichotomy a.start b.start with h | h | h
  · exact Or.inl ((intervalLE_iff a b).mpr (Or.inl h))
  · rcases le_total b.end_ a.end_ with he | he
    · exact Or.inl ((intervalLE_iff a b).mpr (Or.inr ⟨h, he⟩))
    · exact Or.inr ((intervalLE_iff b a).mpr (Or.inr ⟨h.symm, he⟩))
  · exact Or.inr ((intervalLE_iff b a).mpr (Or.inl h))

instance : IsTrans Interval (fun a b => intervalLE a b = true) := by
  constructor
  intro a b c hab hbc
  rw [intervalLE_iff] at hab hbc ⊢
  rcases hab with h1 | ⟨h1, h2⟩ <;> rcases hbc with h3 | ⟨h3, h4⟩
  · exact Or.inl (lt_trans h1 h3)
  · exact Or.inl (h3 ▸ h1)
  · exact Or.inl (h1 ▸ h3)
  · exact Or.inr ⟨h1.trans h3, le_trans h4 h2⟩

/-- Claim C7: the accepted interval list is sorted by start ascending with
ties broken by end descending (the sorted list is a permutation of the input,
and every pair in order satisfies start-lt or start-eq-and-end-ge). -/
theorem claim_C7_sort_order (l : List Interval) :
    (sortIntervals l).Perm l ∧
    List.Pairwise
      (fun a b => a.start < b.start ∨ (a.start = b.start ∧ b.end_ ≤ a.end_))
      (sortIntervals l) := by
  constructor
  · exact List.perm_insertionSort (fun a b => intervalLE a b = true) l
  · have hs := List.sorted_insertionSort (fun a b => intervalLE a b = true) l
    exact hs.imp (fun h => (intervalLE_iff _ _).mp h)

/-- Claim C5: for a line that matched a duration rule and whose timestamp
pattern matched (with group 1 captured), the captured text is parsed first as
a full date-and-time, on failure as a time-of-day anchored to the reference
date 0001-01-01, and if both attempts fail the whole run aborts with an error
and exit code 1, never silently skipping the line. -/
theorem claim_C5_timestamp_two_stage (O : Oracles) (cfg : Config) (line : List Nat)
    (dc tc : Captures) (text : String)
    (hd : cfg.durations.findSome? (fun d => d.captures line) = some dc)
    (ht : cfg.timestamp.captures line = some tc)
    (hs : get_str tc 1 = some text) :
    (∀ t, O.parseNaiveDateTime text cfg.timestamp.format = some t →
        resolveEndTs O cfg.timestamp.format text = some t) ∧
    (O.parseNaiveDateTime text cfg.timestamp.format = none →
        resolveEndTs O cfg.timestamp.format text =
          (O.parseNaiveTime text cfg.timestamp.format).map
            (fun tod => dateAndTimeNs 1 1 1 tod)) ∧
    (O.parseNaiveDateTime text cfg.timestamp.format = none →
     O.parseNaiveTime text cfg.timestamp.format = none →
        processLine O cfg line = .fatalTs ∧
        (∀ ls st, ingest O cfg (line :: ls) st = .fatalTs) ∧
        (∀ ls, mainExitCode (run O cfg (line :: ls)) = some 1)) := by
  refine ⟨?_, ?_, ?_⟩
  · intro t h
    simp [resolveEndTs, h]
  · intro h
    simp [resolveEndTs, h]
  · intro h1 h2
    have hres : resolveEndTs O cfg.timestamp.format text = none := by
      simp [resolveEndTs, h1, h2]
    have hp : processLine O cfg line = .fatalTs := by
      simp [processLine, hd, ht, hs, hres]
    refine ⟨hp, ?_, ?_⟩
    · intro ls st
      simp [ingest, hp]
    · intro ls
      have : ingest O cfg (line :: ls) emptyState = .fatalTs := by
        simp [ingest, hp]
      simp [run, this, mainExitCode]

/-- Claim C9: once a line has matched a duration rule and the timestamp
pattern has matched it, processing is non-panicking exactly when capture
group 1 participated with valid UTF-8 text; when `get_str` fails the program
panics (unwrap on None) rather than erroring or skipping. -/
theorem claim_C9_unwrap_panic (O : Oracles) (cfg : Config) (line : List Nat)
    (dc tc : Captures)
    (hd : cfg.durations.findSome? (fun d => d.captures line) = some dc)
    (ht : cfg.timestamp.captures line = some tc) :
    (get_str tc 1 = none →
        processLine O cfg line = .panicked ∧
        ∀ ls st, ingest O cfg (line :: ls) st = .panicked) ∧
    (∀ text, get_str tc 1 = some text → processLine O cfg line ≠ .panicked) := by
  constructor
  · intro h
    have hp : processLine O cfg line = .panicked := by
      simp [processLine, hd, ht, h]
    exact ⟨hp, fun ls st => by simp [ingest, hp]⟩
  · intro text h
    simp only [processLine, hd, ht, h]
    cases hres : resolveEndTs O cfg.timestamp.format text with
    | none => simp
    | some end_ts =>
      cases hdur : parse_duration O dc with
      | none => simp
      | some dur =>
        by_cases hcut : dur < cutoff
        · simp [hcut]
        · cases hcol : firstMatchIdx (fun c => c.isMatch line) cfg.colors with
          | none => simp [hcut, hcol]
          | some i => simp [hcut, hcol]

/-- Claim C6: for a line reaching color classification, the assigned category
index is the lowest index among the color rules whose pattern matches; when no
rule matches, the run aborts with an error naming the (lossily decoded)
offending line. -/
theorem claim_C6_color_classification (O : Oracles) (cfg : Config) (line : List Nat)
    (dc tc : Captures) (text : String) (end_ts dur : Int)
    (hd : cfg.durations.findSome? (fun d => d.captures line) = some dc)
    (ht : cfg.timestamp.captures line = some tc)
    (hs : get_str tc 1 = some text)
    (hres : resolveEndTs O cfg.timestamp.format text = some end_ts)
    (hdur : parse_duration O dc = some dur)
    (hcut : ¬ dur < cutoff) :
    (∀ i c, cfg.colors.get? i = some c → c.isMatch line = true →
        (∀ j cj, j < i → cfg.colors.get? j = some cj → cj.isMatch line = false) →
        processLine O cfg line =
          .accept { start := end_ts - dur, end_ := end_ts, message := line,
                    color := i, lane := 0 }) ∧
    ((∀ c ∈ cfg.colors, c.isMatch line = false) →
        processLine O cfg line = .fatalColor ("no color specified for " ++ O.lossy line) ∧
        ∀ ls st, ingest O cfg (line :: ls) st =
          .fatalColor ("no color specified for " ++ O.lossy line)) := by
  constructor
  · intro i c hget hmatch hmin
    have hcol : firstMatchIdx (fun c => c.isMatch line) cfg.colors = some i :=
      firstMatchIdx_eq_some_of _ _ i c hget hmatch hmin
    simp [processLine, hd, ht, hs, hres, hdur, hcut, hcol]
  · intro hnone
    have hcol : firstMatchIdx (fun c => c.isMatch line) cfg.colors = none :=
      (firstMatchIdx_eq_none _ _).mpr hnone
    have hp : processLine O cfg line =
        .fatalColor ("no color specified for " ++ O.lossy line) := by
      simp [processLine, hd, ht, hs, hres, hdur, hcut, hcol]
    exact ⟨hp, fun ls st => by simp [ingest, hp]⟩

/-- Claim C1: during lane assignment, the event takes the first lane (in
creation order) whose remembered end time satisfies end − start < cutoff, and
that lane has its remembered end time overwritten with the new end; when no
lane qualifies, a new lane with index equal to the current pool size is
appended. -/
theorem claim_C1_lane_assignment (colors : List ColorPattern) (m : LaneMap)
    (iv : Interval) (cp : ColorPattern) (off : Nat) (es : List Int)
    (hc : colors.get? iv.color = some cp)
    (hm : List.lookup cp.group m = some (off, es)) :
    (∀ i e, es.get? i = some e → e - iv.start < cutoff →
        (∀ j ej, j < i → es.get? j = some ej → ¬(ej - iv.start < cutoff)) →
        placeInterval colors m iv =
          some ({ iv with lane := i },
                updateLookup m cp.group (fun q => (q.1, q.2.set i iv.end_)))) ∧
    ((∀ e ∈ es, ¬(e - iv.start < cutoff)) →
        placeInterval colors m iv =
          some ({ iv with lane := es.length },
                updateLookup m cp.group (fun q => (q.1, q.2 ++ [iv.end_])))) := by
  have hc2 : colors[iv.color]? = some cp := by
    simpa [← List.get?_eq_getElem?] using hc
  constructor
  · intro i e hget hlt hmin
    have hfmi : firstMatchIdx (fun e => decide (e - iv.start < cutoff)) es = some i := by
      refine firstMatchIdx_eq_some_of _ _ i e hget (decide_eq_true hlt) ?_
      intro j ej hj hej
      exact decide_eq_false (hmin j ej hj hej)
    simp [placeInterval, hc2, hm, hfmi]
  · intro hnone
    have hfmi : firstMatchIdx (fun e => decide (e - iv.start < cutoff)) es = none := by
      refine (firstMatchIdx_eq_none _ _).mpr ?_
      intro e he
      exact decide_eq_false (hnone e he)
    simp [placeInterval, hc2, hm, hfmi]

/-- Claim C3 (amended): a line matching a duration rule with computed duration
below the cutoff is silently discarded and processing continues, provided the
timestamp stage does not fail first: the timestamp pattern either does not
match, or its captured text parses.  Because timestamp resolution precedes the
cutoff test, a matched-but-unparseable timestamp aborts the run even for a
below-cutoff line. -/
theorem claim_C3_amended_subcutoff (O : Oracles) (cfg : Config) (line : List Nat)
    (dc : Captures) (d : Int)
    (hd : cfg.durations.findSome? (fun p => p.captures line) = some dc)
    (hdur : parse_duration O dc = some d)
    (hcut : d < cutoff) :
    (cfg.timestamp.captures line = none → processLine O cfg line = .skip) ∧
    (∀ tc text t, cfg.timestamp.captures line = some tc → get_str tc 1 = some text →
        resolveEndTs O cfg.timestamp.format text = some t →
        processLine O cfg line = .skip) ∧
    (∀ tc text, cfg.timestamp.captures line = some tc → get_str tc 1 = some text →
        resolveEndTs O cfg.timestamp.format text = none →
        processLine O cfg line = .fatalTs) ∧
    (∀ ls st, processLine O cfg line = .skip →
        ingest O cfg (line :: ls) st = ingest O cfg ls st) := by
  refine ⟨?_, ?_, ?_, ?_⟩
  · intro ht
    simp [processLine, hd, ht]
  · intro tc text t ht hs hres
    simp [processLine, hd, ht, hs, hres, hdur, hcut]
  · intro tc text ht hs hres
    simp [processLine, hd, ht, hs, hres]
  · intro ls st hp
    simp [ingest, hp]


/-! ### Lane-map lemmas -/

/-- The key list of an association map. -/
def keysOf (m : List (Nat × α)) : List Nat := m.map Prod.fst

/-- Key list of an empty map. -/
theorem keysOf_nil : keysOf ([] : List (Nat × α)) = [] := rfl

/-- Key list of a nonempty map. -/
theorem keysOf_cons (p : Nat × α) (rest : List (Nat × α)) :
    keysOf (p :: rest) = p.1 :: keysOf rest := rfl

/-- Unfolding equation of the ordered-map insertion on a nonempty map. -/
theorem insertSorted_cons (k k2 : Nat) (v v2 : α) (rest : List (Nat × α)) :
    insertSorted k v ((k2, v2) :: rest) =
      if k < k2 then (k, v) :: (k2, v2) :: rest
      else if k = k2 then (k, v) :: rest
      else (k2, v2) :: insertSorted k v rest := rfl

/-- Keys after an ordered-map insertion come from the inserted key or the old
map. -/
theorem insertSorted_keys_subset (k : Nat) (v : α) :
    ∀ (m : List (Nat × α)) (k2 : Nat),
      k2 ∈ keysOf (insertSorted k v m) → k2 = k ∨ k2 ∈ keysOf m := by
  intro m
  induction m with
  | nil =>
    intro k2 h
    rw [show insertSorted k v ([] : List (Nat × α)) = [(k, v)] from rfl,
        keysOf_cons] at h
    rcases List.mem_cons.mp h with h | h
    · exact Or.inl h
    · rw [keysOf_nil] at h; cases h
  | cons p rest ih =>
    obtain ⟨k3, v3⟩ := p
    intro k2 h
    rw [insertSorted_cons] at h
    by_cases h1 : k < k3
    · rw [if_pos h1, keysOf_cons, keysOf_cons] at h
      rcases List.mem_cons.mp h with h | h
      · exact Or.inl h
      · exact Or.inr (by rw [keysOf_cons]; exact h)
    · by_cases h2 : k = k3
      · rw [if_neg h1, if_pos h2, keysOf_cons] at h
        rcases List.mem_cons.mp h with h | h
        · exact Or.inl h
        · exact Or.inr (by rw [keysOf_cons]; exact List.mem_cons_of_mem _ h)
      · rw [if_neg h1, if_neg h2, keysOf_cons] at h
        rcases List.mem_cons.mp h with h | h
        · exact Or.inr (by rw [keysOf_cons]; exact h ▸ List.mem_cons_self _ _)
        · rcases ih k2 h with h3 | h3
          · exact Or.inl h3
          · exact Or.inr (by rw [keysOf_cons]; exact List.mem_cons_of_mem _ h3)

/-- The inserted key, and every old key, is a key of the insertion result. -/
theorem insertSorted_mem_keys (k : Nat) (v : α) :
    ∀ (m : List (Nat × α)),
      k ∈ keysOf (insertSorted k v m) ∧
      ∀ k2, k2 ∈ keysOf m → k2 ∈ keysOf (insertSorted k v m) := by
  intro m
  induction m with
  | nil =>
    constructor
    · rw [show insertSorted k v ([] : List (Nat × α)) = [(k, v)] from rfl, keysOf_cons]
      exact List.mem_cons_self _ _
    · intro k2 h
      rw [keysOf_nil] at h
      cases h
  | cons p rest ih =>
    obtain ⟨k3, v3⟩ := p
    by_cases h1 : k < k3
    · rw [insertSorted_cons, if_pos h1]
      constructor
      · rw [keysOf_cons]; exact List.mem_cons_self _ _
      · intro k2 h
        rw [keysOf_cons]
        exact List.mem_cons_of_mem _ h
    · by_cases h2 : k = k3
      · rw [insertSorted_cons, if_neg h1, if_pos h2]
        constructor
        · rw [keysOf_cons]; exact List.mem_cons_self _ _
        · intro k2 h
          rw [keysOf_cons] at h ⊢
          rcases List.mem_cons.mp h with h | h
          · exact (h.trans h2.symm) ▸ List.mem_cons_self _ _
          · exact List.mem_cons_of_mem _ h
      · rw [insertSorted_cons, if_neg h1, if_neg h2]
        constructor
        · rw [keysOf_cons]
          exact List.mem_cons_of_mem _ ih.1
        · intro k2 h
          rw [keysOf_cons] at h ⊢
          rcases List.mem_cons.mp h with h | h
          · exact h ▸ List.mem_cons_self _ _
          · exact List.mem_cons_of_mem _ (ih.2 k2 h)

/-- Ordered-map insertion preserves strict sortedness of the keys. -/
theorem insertSorted_pairwise (k : Nat) (v : α) :
    ∀ (m : List (Nat × α)), List.Pairwise (· < ·) (keysOf m) →
      List.Pairwise (· < ·) (keysOf (insertSorted k v m)) := by
  intro m
  induction m with
  | nil =>
    intro h
    rw [show insertSorted k v ([] : List (Nat × α)) = [(k, v)] from rfl, keysOf_cons,
        keysOf_nil]
    exact List.pairwise_singleton _ _
  | cons p rest ih =>
    obtain ⟨k3, v3⟩ := p
    intro h
    rw [keysOf_cons] at h
    rw [List.pairwise_cons] at h
    by_cases h1 : k < k3
    · rw [insertSorted_cons, if_pos h1, keysOf_cons, keysOf_cons]
      rw [List.pairwise_cons]
      refine ⟨?_, List.pairwise_cons.mpr h⟩
      intro b hb
      rcases List.mem_cons.mp hb with rfl | hb
      · exact h1
      · exact lt_trans h1 (h.1 b hb)
    · by_cases h2 : k = k3
      · rw [insertSorted_cons, if_neg h1, if_pos h2, keysOf_cons]
        rw [List.pairwise_cons]
        exact ⟨fun b hb => h2 ▸ h.1 b hb, h.2⟩
      · have h3 : k3 < k := by omega
        rw [insertSorted_cons, if_neg h1, if_neg h2, keysOf_cons]
        rw [List.pairwise_cons]
        refine ⟨?_, ih h.2⟩
        intro b hb
        rcases insertSorted_keys_subset k v rest b hb with rfl | hb2
        · exact h3
        · exact h.1 b hb2

/-- The lane map built from the color rules has strictly ascending keys: its
groups are iterated in ascending group-id order. -/
theorem buildLanes_pairwise (colors : List ColorPattern) :
    List.Pairwise (· < ·) (keysOf (buildLanes colors)) := by
  have main : ∀ (cs : List ColorPattern) (init : LaneMap),
      List.Pairwise (· < ·) (keysOf init) →
      List.Pairwise (· < ·)
        (keysOf (cs.foldl
          (fun m c => insertSorted c.group ((0 : Nat), ([] : List Int)) m) init)) := by
    intro cs
    induction cs with
    | nil => intro init h; exact h
    | cons c rest ih =>
      intro init h
      exact ih _ (insertSorted_pairwise c.group _ init h)
  exact main colors [] (by rw [keysOf_nil]; exact List.Pairwise.nil)

/-- The group id of every color rule is a key of the built lane map. -/
theorem buildLanes_mem_keys (colors : List ColorPattern) (c : ColorPattern)
    (hc : c ∈ colors) : c.group ∈ keysOf (buildLanes colors) := by
  have main : ∀ (cs : List ColorPattern) (init : LaneMap) (k : Nat),
      (k ∈ keysOf init ∨ ∃ c2 ∈ cs, c2.group = k) →
      k ∈ keysOf (cs.foldl
        (fun m c => insertSorted c.group ((0 : Nat), ([] : List Int)) m) init) := by
    intro cs
    induction cs with
    | nil =>
      intro init k h
      rcases h with h | ⟨c2, hc2, -⟩
      · exact h
      · cases hc2
    | cons c2 rest ih =>
      intro init k h
      rw [List.foldl_cons]
      refine ih _ k ?_
      rcases h with h | ⟨c3, hc3, hg⟩
      · exact Or.inl ((insertSorted_mem_keys c2.group _ init).2 k h)
      · rcases List.mem_cons.mp hc3 with rfl | hc4
        · exact Or.inl (hg ▸ (insertSorted_mem_keys c3.group _ init).1)
        · exact Or.inr ⟨c3, hc4, hg⟩
  exact main colors [] c.group (Or.inr ⟨c, hc, rfl⟩)

/-- Association-list lookup succeeds exactly on the keys. -/
theorem lookup_isSome_iff (k : Nat) :
    ∀ (m : List (Nat × α)), (List.lookup k m).isSome = true ↔ k ∈ keysOf m := by
  intro m
  induction m with
  | nil => simp [List.lookup, keysOf_nil]
  | cons p rest ih =>
    obtain ⟨k3, v3⟩ := p
    rw [keysOf_cons]
    by_cases h : k = k3
    · simp [List.lookup, h]
    · have hb : (k == k3) = false := by simpa using h
      simp [List.lookup, hb, ih, h]

/-- Updating a value in place does not change the key list. -/
theorem updateLookup_keys (k : Nat) (f : α → α) :
    ∀ (m : List (Nat × α)), keysOf (updateLookup m k f) = keysOf m := by
  intro m
  induction m with
  | nil => rfl
  | cons p rest ih =>
    show keysOf ((if p.1 = k then (p.1, f p.2) else p) :: updateLookup rest k f) =
      keysOf (p :: rest)
    rw [keysOf_cons, keysOf_cons, ih]
    by_cases h : p.1 = k <;> simp [h]

/-- A successful lane placement does not change the key list of the map. -/
theorem placeInterval_keys (colors : List ColorPattern) (m : LaneMap) (iv iv2 : Interval)
    (m2 : LaneMap) (h : placeInterval colors m iv = some (iv2, m2)) :
    keysOf m2 = keysOf m := by
  unfold placeInterval at h
  split at h
  · cases h
  · rename_i cp hc
    split at h
    · cases h
    · rename_i pr off es hm
      split at h
      · cases h
        exact updateLookup_keys cp.group _ m
      · cases h
        exact updateLookup_keys cp.group _ m

/-- The lane-packing loop does not change the key list of the map. -/
theorem packLanes_keys (colors : List ColorPattern) :
    ∀ (ivs : List Interval) (m : LaneMap) (r : List Interval × LaneMap),
      packLanes colors ivs m = some r → keysOf r.2 = keysOf m := by
  intro ivs
  induction ivs with
  | nil =>
    intro m r h
    cases h
    rfl
  | cons iv rest ih =>
    intro m r h
    unfold packLanes at h
    split at h
    · cases h
    · rename_i pr iv2 m2 hp
      split at h
      · cases h
      · rename_i r2 rest2 m3 hrec
        cases h
        exact (ih m2 (rest2, m3) hrec).trans (placeInterval_keys colors m iv iv2 m2 hp)

/-- A lane placement succeeds whenever the color index is in range and the
group of that color is a key of the map. -/
theorem placeInterval_isSome (colors : List ColorPattern) (m : LaneMap) (iv : Interval)
    (hc : iv.color < colors.length)
    (hk : ∀ c, colors.get? iv.color = some c → c.group ∈ keysOf m) :
    (placeInterval colors m iv).isSome = true := by
  have hcp : colors.get? iv.color = some (colors.get ⟨iv.color, hc⟩) :=
    List.get?_eq_get hc
  have hkey := hk _ hcp
  have hl : (List.lookup (colors.get ⟨iv.color, hc⟩).group m).isSome = true :=
    (lookup_isSome_iff _ m).mpr hkey
  obtain ⟨pr, hpr⟩ := Option.isSome_iff_exists.mp hl
  obtain ⟨off, es⟩ := pr
  cases hf : firstMatchIdx (fun e => decide (e - iv.start < cutoff)) es with
  | some i => simp only [placeInterval, hcp, hpr, hf, Option.isSome_some]
  | none => simp only [placeInterval, hcp, hpr, hf, Option.isSome_some]

/-- Lane packing succeeds on any interval list whose color indices are in
range, given a map keyed by all declared groups; the key list is preserved. -/
theorem packLanes_isSome (colors : List ColorPattern) :
    ∀ (ivs : List Interval) (m : LaneMap),
      (∀ iv ∈ ivs, iv.color < colors.length) →
      (∀ iv ∈ ivs, ∀ c, colors.get? iv.color = some c → c.group ∈ keysOf m) →
      (packLanes colors ivs m).isSome = true := by
  intro ivs
  induction ivs with
  | nil => intro m h1 h2; rfl
  | cons iv rest ih =>
    intro m h1 h2
    have hpl := placeInterval_isSome colors m iv (h1 iv (by simp))
      (h2 iv (by simp))
    obtain ⟨pr, hpr⟩ := Option.isSome_iff_exists.mp hpl
    obtain ⟨iv2, m2⟩ := pr
    have hkeys := placeInterval_keys colors m iv iv2 m2 hpr
    have hrec := ih m2 (fun iv3 h => h1 iv3 (by simp [h]))
      (fun iv3 h c hc => hkeys ▸ h2 iv3 (by simp [h]) c hc)
    obtain ⟨r2, hr2⟩ := Option.isSome_iff_exists.mp hrec
    obtain ⟨ivs3, m3⟩ := r2
    simp only [packLanes, hpr, hr2, Option.isSome_some]


/-! ### Offset-assignment lemmas -/

/-- Unfolding equation of the offset loop on a nonempty map. -/
theorem assignOffsets_cons (g : Nat) (o : Nat) (es : List Int) (rest : LaneMap) (t : Nat) :
    assignOffsets ((g, (o, es)) :: rest) t =
      ((g, (t, es)) :: (assignOffsets rest (t + es.length)).1,
       (assignOffsets rest (t + es.length)).2) := rfl

/-- Offset assignment does not change the key list. -/
theorem assignOffsets_keys : ∀ (m : LaneMap) (t : Nat),
    keysOf (assignOffsets m t).1 = keysOf m := by
  intro m
  induction m with
  | nil => intro t; rfl
  | cons p rest ih =>
    obtain ⟨g, o, es⟩ := p
    intro t
    rw [assignOffsets_cons, keysOf_cons, keysOf_cons, ih]

/-- Offset assignment does not change the per-group lane lists. -/
theorem assignOffsets_lens : ∀ (m : LaneMap) (t : Nat),
    (assignOffsets m t).1.map (fun p => p.2.2.length) = m.map (fun p => p.2.2.length) := by
  intro m
  induction m with
  | nil => intro t; rfl
  | cons p rest ih =>
    obtain ⟨g, o, es⟩ := p
    intro t
    rw [assignOffsets_cons, List.map_cons, List.map_cons, ih]

/-- The final total is the starting total plus the sum of all lane counts. -/
theorem assignOffsets_total : ∀ (m : LaneMap) (t : Nat),
    (assignOffsets m t).2 = t + ((m.map (fun p => p.2.2.length)).sum) := by
  intro m
  induction m with
  | nil => intro t; simp [assignOffsets]
  | cons p rest ih =>
    obtain ⟨g, o, es⟩ := p
    intro t
    rw [assignOffsets_cons]
    simp only [List.map_cons, List.sum_cons]
    rw [ih]
    omega

/-- Each entry receives as offset the running total of the lane counts of all
entries before it. -/
theorem assignOffsets_offsets : ∀ (m : LaneMap) (t : Nat) (i : Nat), i < m.length →
    ((assignOffsets m t).1.get? i).map (fun p => p.2.1) =
      some (t + (((m.take i).map (fun p => p.2.2.length)).sum)) := by
  intro m
  induction m with
  | nil => intro t i h; cases h
  | cons p rest ih =>
    obtain ⟨g, o, es⟩ := p
    intro t i h
    rw [assignOffsets_cons]
    match i with
    | 0 => simp
    | Nat.succ j =>
      have hj : j < rest.length := by simpa using h
      have := ih (t + es.length) j hj
      simp only [List.get?_cons_succ, List.take_succ_cons, List.map_cons, List.sum_cons]
      rw [this]
      congr 1
      omega

/-- Concatenating the local lane ranges of the offset-assigned map in map
order yields one contiguous range. -/
theorem assignOffsets_ranges : ∀ (m : LaneMap) (t : Nat),
    ((assignOffsets m t).1.map (fun p => List.range' p.2.1 p.2.2.length)).flatten =
      List.range' t ((m.map (fun p => p.2.2.length)).sum) := by
  intro m
  induction m with
  | nil => intro t; simp [assignOffsets]
  | cons p rest ih =>
    obtain ⟨g, o, es⟩ := p
    intro t
    rw [assignOffsets_cons]
    simp only [List.map_cons, List.flatten_cons, List.sum_cons]
    rw [ih]
    have := List.range'_append t es.length ((rest.map (fun p => p.2.2.length)).sum) 1
    simp only [one_mul] at this
    rw [this, Nat.add_comm ((rest.map (fun p => p.2.2.length)).sum) es.length]

/-! ### Ingest invariants -/

/-- Every accepted interval carries a color index that is a valid index into
the configured color-rule list. -/
theorem processLine_accept_color (O : Oracles) (cfg : Config) (line : List Nat)
    (iv : Interval) (h : processLine O cfg line = .accept iv) :
    iv.color < cfg.colors.length := by
  unfold processLine at h
  split at h
  · cases h
  · split at h
    · cases h
    · split at h
      · cases h
      · split at h
        · cases h
        · split at h
          · cases h
          · split at h
            · cases h
            · split at h
              · cases h
              · rename_i i hcol
                cases h
                exact firstMatchIdx_lt_length _ _ _ hcol

/-- The ingest loop preserves validity of the color indices of the
accumulated intervals. -/
theorem ingest_colors_valid (O : Oracles) (cfg : Config) :
    ∀ (lines : List (List Nat)) (st0 st : IngestState),
      (∀ iv ∈ st0.intervals, iv.color < cfg.colors.length) →
      ingest O cfg lines st0 = .ok st →
      ∀ iv ∈ st.intervals, iv.color < cfg.colors.length := by
  intro lines
  induction lines with
  | nil =>
    intro st0 st h0 h
    cases h
    exact h0
  | cons l ls ih =>
    intro st0 st h0 h
    unfold ingest at h
    split at h
    · exact ih st0 st h0 h
    · rename_i iv hacc
      refine ih _ st ?_ h
      intro iv2 hiv2
      rcases List.mem_append.mp hiv2 with h2 | h2
      · exact h0 iv2 h2
      · have : iv2 = iv := List.mem_singleton.mp h2
        subst this
        exact processLine_accept_color O cfg l iv2 hacc
    · cases h
    · cases h
    · cases h

/-- If every line is skipped, the ingest loop returns its starting state. -/
theorem ingest_all_skip (O : Oracles) (cfg : Config) :
    ∀ (lines : List (List Nat)) (st : IngestState),
      (∀ l ∈ lines, processLine O cfg l = .skip) →
      ingest O cfg lines st = .ok st := by
  intro lines
  induction lines with
  | nil => intro st h; rfl
  | cons l ls ih =>
    intro st h
    have hl : processLine O cfg l = .skip := h l (by simp)
    have hrest := ih st (fun l2 h2 => h l2 (by simp [h2]))
    simp [ingest, hl, hrest]

/-! ### Claim theorems (second batch) -/

/-- Claim C10: whenever the ingest phase succeeds, every accepted interval has
a category index that is a valid index into the color-rule list, and the lane
packing over the map keyed by the declared group ids always succeeds (the
group lookup unwrap is unreachable). -/
theorem claim_C10_lane_lookup_total (O : Oracles) (cfg : Config)
    (lines : List (List Nat)) (st : IngestState)
    (h : ingest O cfg lines emptyState = .ok st) :
    (∀ iv ∈ st.intervals, iv.color < cfg.colors.length) ∧
    (packLanes cfg.colors (sortIntervals st.intervals)
      (buildLanes cfg.colors)).isSome = true := by
  have hvalid : ∀ iv ∈ st.intervals, iv.color < cfg.colors.length :=
    ingest_colors_valid O cfg lines emptyState st (by simp [emptyState]) h
  refine ⟨hvalid, ?_⟩
  refine packLanes_isSome cfg.colors _ _ ?_ ?_
  · intro iv hiv
    exact hvalid iv ((List.perm_insertionSort (fun a b => intervalLE a b = true) st.intervals).mem_iff.mp hiv)
  · intro iv hiv c hc
    exact buildLanes_mem_keys cfg.colors c (List.get?_mem hc)

/-- Claim C2: for any successful run, the lane map is keyed by strictly
ascending group ids, each group receives as base offset the running total of
the lane counts of the groups before it, concatenating the local lane ranges
in that order reproduces exactly the range [0, total_lanes), and the final
lane number of an interval is its local lane index plus the base offset of
the group of its color. -/
theorem claim_C2_offsets_dense (O : Oracles) (cfg : Config) (lines : List (List Nat))
    (out : Output) (h : run O cfg lines = .ok out) :
    List.Pairwise (· < ·) (keysOf out.laneMap) ∧
    (∀ i, i < out.laneMap.length →
        (out.laneMap.get? i).map (fun p => p.2.1) =
          some (((out.laneMap.take i).map (fun p => p.2.2.length)).sum)) ∧
    ((out.laneMap.map (fun p => List.range' p.2.1 p.2.2.length)).flatten =
        List.range out.totalLanes) ∧
    (∀ iv c off es, cfg.colors.get? iv.color = some c →
        List.lookup c.group out.laneMap = some (off, es) →
        finalLane cfg.colors out.laneMap iv = some (iv.lane + off)) := by
  unfold run at h
  split at h
  · rename_i st hst
    split at h
    · cases h
    · rename_i r hpack
      injection h with h2
      subst h2
      have hkeys : keysOf (assignOffsets r.2 0).1 = keysOf (buildLanes cfg.colors) := by
        rw [assignOffsets_keys]
        exact packLanes_keys cfg.colors _ _ r hpack
      dsimp only
      refine ⟨?_, ?_, ?_, ?_⟩
      · rw [hkeys]
        exact buildLanes_pairwise cfg.colors
      · intro i hi
        have hlen : (assignOffsets r.2 0).1.length = r.2.length := by
          have := congrArg List.length (assignOffsets_lens r.2 0)
          simpa using this
        have hi2 : i < r.2.length := by
          rw [hlen] at hi
          exact hi
        have hoff := assignOffsets_offsets r.2 0 i hi2
        have htake : ((assignOffsets r.2 0).1.take i).map (fun p => p.2.2.length) =
            (r.2.take i).map (fun p => p.2.2.length) := by
          rw [List.map_take, List.map_take, assignOffsets_lens]
        rw [htake]
        simpa using hoff
      · rw [assignOffsets_total]
        simp only [Nat.zero_add]
        rw [List.range_eq_range']
        exact assignOffsets_ranges r.2 0
      · intro iv c off es hc hlk
        simp only [finalLane, hc, hlk]
  · cases h
  · cases h
  · cases h

/-- Claim C8 (amended): when zero events are accepted, the run still succeeds
(exit code 0) and the sentinels are exposed: the reported global range is the
initial sentinel pair (MAX_DATE end-of-day, MIN_DATE midnight) and the global
duration is computed from them, the negative constant -16544931263999
seconds, rather than being reported as an error or clamped to zero. -/
theorem claim_C8_amended_sentinels_exposed (O : Oracles) (cfg : Config)
    (lines : List (List Nat)) (h : ∀ l ∈ lines, processLine O cfg l = .skip) :
    globalRangeOf (run O cfg lines) = some (globalStartInit, globalEndInit) ∧
    globalDurationOf (run O cfg lines) = some (-16544931263999) ∧
    mainExitCode (run O cfg lines) = some 0 := by
  have hing : ingest O cfg lines emptyState = .ok emptyState :=
    ingest_all_skip O cfg lines emptyState h
  have hpack : packLanes cfg.colors (sortIntervals emptyState.intervals)
      (buildLanes cfg.colors) = some ([], buildLanes cfg.colors) := by
    show packLanes cfg.colors (sortIntervals []) (buildLanes cfg.colors) = _
    rfl
  have hval : numSeconds (globalEndInit - globalStartInit) = -16544931263999 := by decide
  have hrun : run O cfg lines = Outcome.ok
      { intervals := [],
        laneMap := (assignOffsets (buildLanes cfg.colors) 0).1,
        totalLanes := (assignOffsets (buildLanes cfg.colors) 0).2,
        globalStart := globalStartInit, globalEnd := globalEndInit,
        globalDuration := numSeconds (globalEndInit - globalStartInit) } := by
    simp only [run, hing, hpack]
    rfl
  refine ⟨?_, ?_, ?_⟩
  · rw [hrun]
    rfl
  · rw [hrun]
    show some (numSeconds (globalEndInit - globalStartInit)) = some (-16544931263999)
    rw [hval]
  · rw [hrun]
    rfl


/-! ### Concrete fixtures for witnesses and counterexamples -/

/-- Captures of a timestamp pattern whose group 1 holds the given text. -/
def mkTsCaps (text : String) : Captures :=
  { get := fun i => if i = 1 then some (some text) else none,
    name := fun _ => none }

/-- Captures of a duration pattern whose named group s holds the given text. -/
def mkDurCaps (sec : String) : Captures :=
  { get := fun _ => none,
    name := fun nm => if nm = "s" then some (some sec) else none }

/-- Captures in which no group participated (group 1 absent). -/
def capsNoGroup : Captures := { get := fun _ => none, name := fun _ => none }

/-- Concrete parser oracles: parses the float texts 0.5 and 2, and the
timestamp texts 100 and 200 (seconds) under format F. -/
def Otest : Oracles :=
  { parseF64 := fun s =>
      if s = "0.5" then some { num := 1, den := 2 }
      else if s = "2" then some { num := 2, den := 1 } else none,
    parseNaiveDateTime := fun text fmt =>
      if fmt = "F" then
        if text = "100" then some (100 * nsPerSecond)
        else if text = "200" then some (200 * nsPerSecond) else none
      else none,
    parseNaiveTime := fun _ _ => none,
    lossy := fun _ => "offending line" }

/-- A color rule matching every line, group 0. -/
def redAll : ColorPattern := { isMatch := fun _ => true, color := "red", group := 0 }

/-- Config whose duration rule yields 0.5 s (below cutoff) and whose timestamp
pattern matches with unparseable text. -/
def cfgC3 : Config :=
  { timestamp := { captures := fun _ => some (mkTsCaps "BAD"), format := "F" },
    durations := [{ captures := fun _ => some (mkDurCaps "0.5") }],
    colors := [redAll] }

/-- Config whose duration rule yields 0.5 s and whose timestamp pattern never
matches. -/
def cfgSkip : Config :=
  { timestamp := { captures := fun _ => none, format := "F" },
    durations := [{ captures := fun _ => some (mkDurCaps "0.5") }],
    colors := [redAll] }

/-- Config whose timestamp pattern matches without a participating group 1. -/
def cfgPanic : Config :=
  { timestamp := { captures := fun _ => some capsNoGroup, format := "F" },
    durations := [{ captures := fun _ => some (mkDurCaps "2") }],
    colors := [redAll] }

/-- Color rule matching only the line with byte 1, group 0. -/
def redTwo : ColorPattern := { isMatch := fun line => line == [1], color := "red", group := 0 }

/-- Color rule matching only the line with byte 2, group 1. -/
def blueTwo : ColorPattern := { isMatch := fun line => line == [2], color := "blue", group := 1 }

/-- Timestamp captures for the two-line two-group fixture. -/
def tsCapsTwo (line : List Nat) : Option Captures :=
  if line = [1] then some (mkTsCaps "100")
  else if line = [2] then some (mkTsCaps "200")
  else none

/-- Config with two color rules in two distinct groups. -/
def cfgTwo : Config :=
  { timestamp := { captures := tsCapsTwo, format := "F" },
    durations := [{ captures := fun _ => some (mkDurCaps "2") }],
    colors := [redTwo, blueTwo] }

/-- The two log lines of the two-group fixture. -/
def linesTwo : List (List Nat) := [[1], [2]]

/-- The ingest result of the two-group fixture. -/
def stTwo : IngestState :=
  { intervals :=
      [{ start := 98000000000, end_ := 100000000000, message := [1], color := 0, lane := 0 },
       { start := 198000000000, end_ := 200000000000, message := [2], color := 1, lane := 0 }],
    gstart := 98000000000, gend := 200000000000 }

/-- The full run output of the two-group fixture. -/
def outTwo : Output :=
  { intervals :=
      [{ start := 98000000000, end_ := 100000000000, message := [1], color := 0, lane := 0 },
       { start := 198000000000, end_ := 200000000000, message := [2], color := 1, lane := 0 }],
    laneMap := [(0, (0, [100000000000])), (1, (1, [200000000000]))],
    totalLanes := 2, globalStart := 98000000000, globalEnd := 200000000000,
    globalDuration := 102 }

/-- A one-lane pool for the lane-assignment witness. -/
def laneMapW : LaneMap := [(0, (0, [100000000000]))]

/-- Interval overlapping the existing lane occupant by half a second. -/
def ivW : Interval :=
  { start := 100500000000, end_ := 103000000000, message := [3], color := 0, lane := 0 }

/-! ### Counterexamples and witnesses -/

/-- Claim C3 counterexample: the line with byte 65 matches the duration rule
of cfgC3 with a computed duration of 0.5 s, below the cutoff, yet the run
aborts (timestamp parsing precedes the cutoff check), contradicting the claim
that such a line never causes the run to abort. -/
theorem claim_C3_counterexample :
    cfgC3.durations.findSome? (fun d => d.captures [65]) = some (mkDurCaps "0.5") ∧
    parse_duration Otest (mkDurCaps "0.5") = some 500000000 ∧
    (500000000 : Int) < cutoff ∧
    run Otest cfgC3 [[65]] = .fatalTs := by
  refine ⟨rfl, by decide, by decide, by decide⟩

/-- Claim C3 witness: with a timestamp pattern that does not match, the
below-cutoff line is silently discarded and the loop continues. -/
theorem claim_C3_witness :
    processLine Otest cfgSkip [65] = .skip ∧
    ingest Otest cfgSkip [[65]] emptyState = ingest Otest cfgSkip [] emptyState := by
  have h := claim_C3_amended_subcutoff Otest cfgSkip [65] (mkDurCaps "0.5") 500000000
    rfl (by decide) (by decide)
  exact ⟨h.1 rfl, h.2.2.2 [] emptyState (h.1 rfl)⟩

/-- Claim C8 counterexample: with zero accepted events (empty log) the run
succeeds (exit code 0) and the global duration exposed in the output is the
sentinel-derived negative constant, neither an error nor zero-length. -/
theorem claim_C8_counterexample :
    mainExitCode (run Otest cfgC3 []) = some 0 ∧
    globalDurationOf (run Otest cfgC3 []) = some (-16544931263999) ∧
    (-16544931263999 : Int) < 0 := by
  refine ⟨by decide, by decide, by decide⟩

/-- Claim C8 witness: instance of the amended claim on an empty log. -/
theorem claim_C8_witness :
    globalRangeOf (run Otest cfgC3 []) = some (globalStartInit, globalEndInit) ∧
    globalDurationOf (run Otest cfgC3 []) = some (-16544931263999) := by
  have h := claim_C8_amended_sentinels_exposed Otest cfgC3 []
    (by intro l hl; cases hl)
  exact ⟨h.1, h.2.1⟩

/-- Claim C1 witness: the overlapping event reuses lane 0 and overwrites its
remembered end time. -/
theorem claim_C1_witness :
    placeInterval cfgC3.colors laneMapW ivW =
      some ({ ivW with lane := 0 },
            updateLookup laneMapW redAll.group (fun q => (q.1, q.2.set 0 ivW.end_))) := by
  have h := claim_C1_lane_assignment cfgC3.colors laneMapW ivW redAll 0 [100000000000]
    rfl rfl
  exact h.1 0 100000000000 rfl (by decide) (fun j ej hj _ => absurd hj (Nat.not_lt_zero j))

/-- Claim C2 witness: on the two-group fixture the concatenated lane ranges
reproduce the range [0, total_lanes). -/
theorem claim_C2_witness :
    (outTwo.laneMap.map (fun p => List.range' p.2.1 p.2.2.length)).flatten =
      List.range outTwo.totalLanes :=
  (claim_C2_offsets_dense Otest cfgTwo linesTwo outTwo (by decide)).2.2.1

/-- Claim C4 witness: the duration of a 2-second capture follows the formula
and an absent h group contributes zero. -/
theorem claim_C4_witness :
    parse_duration Otest (mkDurCaps "2") =
      some (roundHalfAway (FloatVal.mul
        (FloatVal.add (FloatVal.add
          (FloatVal.mul (get_float Otest (mkDurCaps "2") "h") (FloatVal.ofNat 3600))
          (FloatVal.mul (get_float Otest (mkDurCaps "2") "m") (FloatVal.ofNat 60)))
          (get_float Otest (mkDurCaps "2") "s"))
        (FloatVal.ofNat 1000000000))) ∧
    get_float Otest (mkDurCaps "2") "h" = FloatVal.ofNat 0 :=
  ⟨(claim_C4_duration_formula Otest (mkDurCaps "2")).1,
   (claim_C4_duration_formula Otest (mkDurCaps "2")).2.1 "h" (by decide)⟩

/-- Claim C5 witness: a matched-but-unparseable timestamp aborts the run with
exit code 1. -/
theorem claim_C5_witness :
    processLine Otest cfgC3 [65] = .fatalTs ∧
    mainExitCode (run Otest cfgC3 [[65]]) = some 1 := by
  have h := claim_C5_timestamp_two_stage Otest cfgC3 [65] (mkDurCaps "0.5") (mkTsCaps "BAD")
    "BAD" rfl rfl rfl
  have h3 := h.2.2 (by decide) (by decide)
  exact ⟨h3.1, h3.2.2 []⟩

/-- Claim C6 witness: the line matching only the second color rule is
assigned category index 1, the lowest matching index. -/
theorem claim_C6_witness :
    processLine Otest cfgTwo [2] =
      .accept { start := 200000000000 - 2000000000, end_ := 200000000000,
                message := [2], color := 1, lane := 0 } := by
  have h := claim_C6_color_classification Otest cfgTwo [2] (mkDurCaps "2") (mkTsCaps "200")
    "200" 200000000000 2000000000 rfl rfl rfl (by decide) (by decide) (by decide)
  refine h.1 1 blueTwo rfl (by decide) ?_
  intro j cj hj hcj
  have hj0 : j = 0 := by omega
  subst hj0
  have hcj2 : cj = redTwo := by
    have h0 : cfgTwo.colors.get? 0 = some redTwo := rfl
    rw [h0] at hcj
    exact (Option.some.inj hcj).symm
  subst hcj2
  decide

/-- Claim C9 witness: a timestamp match without a participating group 1
panics. -/
theorem claim_C9_witness :
    processLine Otest cfgPanic [65] = .panicked :=
  ((claim_C9_unwrap_panic Otest cfgPanic [65] (mkDurCaps "2") capsNoGroup rfl rfl).1 rfl).1

/-- Claim C10 witness: lane packing succeeds on the ingest result of the
two-group fixture. -/
theorem claim_C10_witness :
    (packLanes cfgTwo.colors (sortIntervals stTwo.intervals)
      (buildLanes cfgTwo.colors)).isSome = true :=
  (claim_C10_lane_lookup_total Otest cfgTwo linesTwo stTwo (by decide)).2

end LogViz
